import Mathlib

/-!
Verification development for the piko ledger/mempool subsystem and the
real-time delivery pool.  The Go source is shallowly embedded: pure Go
functions become Lean functions over Nat / Int / String / List, the
clock reads (time.Now) become explicit parameters, and the persistence
layer becomes explicit in-memory state threaded through the operations.
-/

namespace Piko

/-! ## SHA-256 over byte lists (crypto/sha256), 32-bit words as Nat mod 2^32 -/

/-- Modulus for 32-bit word arithmetic. -/
def w32 : Nat := 4294967296

/-- Right rotation of a 32-bit word. -/
def rotr (k x : Nat) : Nat := (x >>> k) ||| ((x <<< (32 - k)) % w32)

/-- SHA-256 choice function. -/
def ch (x y z : Nat) : Nat := (x &&& y) ^^^ ((x ^^^ (w32 - 1)) &&& z)

/-- SHA-256 majority function. -/
def maj (x y z : Nat) : Nat := (x &&& y) ^^^ (x &&& z) ^^^ (y &&& z)

def bsig0 (x : Nat) : Nat := rotr 2 x ^^^ rotr 13 x ^^^ rotr 22 x

def bsig1 (x : Nat) : Nat := rotr 6 x ^^^ rotr 11 x ^^^ rotr 25 x

def ssig0 (x : Nat) : Nat := rotr 7 x ^^^ rotr 18 x ^^^ (x >>> 3)

def ssig1 (x : Nat) : Nat := rotr 17 x ^^^ rotr 19 x ^^^ (x >>> 10)

/-- SHA-256 round constants. -/
def sha256K : List Nat :=
  [1116352408, 1899447441, 3049323471, 3921009573, 961987163,
   1508970993, 2453635748, 2870763221, 3624381080, 310598401,
   607225278, 1426881987, 1925078388, 2162078206, 2614888103,
   3248222580, 3835390401, 4022224774, 264347078, 604807628,
   770255983, 1249150122, 1555081692, 1996064986, 2554220882,
   2821834349, 2952996808, 3210313671, 3336571891, 3584528711,
   113926993, 338241895, 666307205, 773529912, 1294757372,
   1396182291, 1695183700, 1986661051, 2177026350, 2456956037,
   2730485921, 2820302411, 3259730800, 3345764771, 3516065817,
   3600352804, 4094571909, 275423344, 430227734, 506948616,
   659060556, 883997877, 958139571, 1322822218, 1537002063,
   1747873779, 1955562222, 2024104815, 2227730452, 2361852424,
   2428436474, 2756734187, 3204031479, 3329325298]

/-- SHA-256 initial hash state. -/
def sha256H0 : List Nat :=
  [1779033703, 3144134277, 1013904242, 2773480762,
   1359893119, 2600822924, 528734635, 1541459225]

/-- Big-endian byte rendering of a number, fixed width. -/
def beBytes : Nat → Nat → List Nat
  | 0, _ => []
  | k + 1, n => beBytes k (n / 256) ++ [n % 256]

/-- SHA-256 padding: append 0x80, zero bytes, and the 64-bit bit length. -/
def padBytes (msg : List Nat) : List Nat :=
  let L := msg.length
  msg ++ [128] ++ List.replicate ((119 - L % 64) % 64) 0 ++ beBytes 8 (8 * L)

/-- Group bytes into big-endian 32-bit words. -/
def wordsOfBytes : List Nat → List Nat
  | b0 :: b1 :: b2 :: b3 :: rest =>
      (((b0 * 256 + b1) * 256 + b2) * 256 + b3) :: wordsOfBytes rest
  | _ => []

/-- Group a word list into 16-word blocks. -/
def chunk16 : List Nat → List (List Nat)
  | w0 :: w1 :: w2 :: w3 :: w4 :: w5 :: w6 :: w7 ::
    w8 :: w9 :: w10 :: w11 :: w12 :: w13 :: w14 :: w15 :: rest =>
      [w0, w1, w2, w3, w4, w5, w6, w7, w8, w9, w10, w11, w12, w13, w14, w15]
        :: chunk16 rest
  | _ => []

/-- One extension step of the message schedule, on the reversed word list. -/
def schedStep (rws : List Nat) : List Nat :=
  let g : Nat → Nat := fun n => rws.getD n 0
  ((ssig1 (g 1) + g 6 + ssig0 (g 14) + g 15) % w32) :: rws

/-- Extend a 16-word block to the 64-word message schedule. -/
def schedule (block : List Nat) : List Nat :=
  ((List.range 48).foldl (fun acc _ => schedStep acc) block.reverse).reverse

/-- One SHA-256 compression round on the 8-word working state. -/
def roundStep (st : List Nat) (kw : Nat × Nat) : List Nat :=
  match st with
  | [a, b, c, d, e, f, g, h] =>
      let t1 := (h + bsig1 e + ch e f g + kw.1 + kw.2) % w32
      let t2 := (bsig0 a + maj a b c) % w32
      [(t1 + t2) % w32, a, b, c, (d + t1) % w32, e, f, g]
  | other => other

/-- Compress one 16-word block into the running hash state. -/
def compress (h : List Nat) (block : List Nat) : List Nat :=
  let st := ((sha256K.zip (schedule block)).foldl roundStep h)
  (h.zip st).map (fun p => (p.1 + p.2) % w32)

/-- SHA-256 digest of a byte list, as 32 bytes. -/
def sha256 (msg : List Nat) : List Nat :=
  (((chunk16 (wordsOfBytes (padBytes msg))).foldl compress sha256H0).map
    (beBytes 4)).flatten

/-- Lowercase hex digit. -/
def hexDigit (n : Nat) : Char :=
  Char.ofNat (if n < 10 then 48 + n else 87 + n)

/-- Lowercase hex rendering of a byte list (encoding/hex). -/
def hexOfBytes (bs : List Nat) : String :=
  String.mk ((bs.map (fun b => [hexDigit (b / 16), hexDigit (b % 16)])).flatten)

/-- Byte view of a string; the program only ever hashes ASCII data, where
UTF-8 bytes coincide with the code points. -/
def strBytes (s : String) : List Nat := s.data.map Char.toNat

/-- Digest of a string as a lowercase hex string, as Go's
hex.EncodeToString(sha256.Sum256(data)) produces. -/
def sha256Hex (s : String) : String := hexOfBytes (sha256 (strBytes s))

/-! ## Data model (models package)

Go's time.Time values are modelled by their UnixNano reading, since the
program only ever hashes timestamp.UnixNano() and compares nothing else. -/

/-- A point in time, as its UnixNano value. -/
abbrev Time := Int

/-- models.TransactionType is a string type in Go. -/
abbrev TransactionType := String

def TransactionTypeMessage : TransactionType := "message"

def TransactionTypeChannelMessage : TransactionType := "channel_message"

def TransactionTypeChannelCreate : TransactionType := "channel_create"

def TransactionTypeChannelJoin : TransactionType := "channel_join"

/-- models.Block. -/
structure Block where
  ID : String
  PreviousHash : Option String
  Timestamp : Time
  MerkleRoot : String
  Nonce : Int
  Height : Int
  deriving DecidableEq, Repr

/-- models.Transaction as created by the sealing loop (the Timestamp column
is filled by the database default and never set by the code). -/
structure Transaction where
  Hash : String
  BlockID : String
  Type' : TransactionType
  DataID : String
  deriving DecidableEq, Repr

/-- models.MessageStatus: the three values the code ever writes. -/
inductive MessageStatus where
  | pending
  | delivered
  | read
  deriving DecidableEq, Repr

/-- models.Message. -/
structure Message where
  ID : String
  SenderAddress : String
  RecipientAddress : String
  EncryptedContent : List Nat
  Timestamp : Time
  Status : MessageStatus
  ExpirationTime : Option Time
  BlockID : Option String
  deriving DecidableEq, Repr

/-- models.ChannelMessage. -/
structure ChannelMessage where
  ID : String
  ChannelID : String
  SenderAddress : String
  EncryptedContent : List Nat
  Timestamp : Time
  BlockID : Option String
  deriving DecidableEq, Repr

/-! ## HashChain primitives (blockchain/blockchain.go) -/

/-- The all-zero sentinel used when a block has no predecessor. -/
def zeroSentinel : String :=
  "0000000000000000000000000000000000000000000000000000000000000000"

/-- blockchain.calculateBlockHash: SHA-256 over the Sprintf
concatenation prevHash, timestamp.UnixNano(), merkleRoot, nonce. -/
def calculateBlockHash (previousHash : Option String) (timestamp : Time)
    (merkleRoot : String) (nonce : Int) : String :=
  let prevHash :=
    match previousHash with
    | none => zeroSentinel
    | some s => s
  sha256Hex (prevHash ++ toString timestamp ++ merkleRoot ++ toString nonce)

/-- blockchain.calculateTransactionHash; the timestamp argument is the
wall clock read at hashing time, made explicit here. -/
def calculateTransactionHash (txType : TransactionType) (dataID : String)
    (blockID : String) (now : Time) : String :=
  sha256Hex (txType ++ dataID ++ blockID ++ toString now)

/-- blockchain.MempoolTransaction. -/
structure MempoolTransaction where
  Type' : TransactionType
  DataID : String
  Timestamp : Time
  deriving DecidableEq, Repr

/-- The data string hashed for one mempool entry inside
calculateMerkleRoot: Sprintf of Type, DataID, Timestamp.UnixNano(). -/
def txLeafData (tx : MempoolTransaction) : String :=
  tx.Type' ++ tx.DataID ++ toString tx.Timestamp

/-- One pairing pass of the merkle loop: concatenate and hash adjacent
pairs (the input has even length by construction). -/
def merklePairs : List String → List String
  | a :: b :: rest => sha256Hex (a ++ b) :: merklePairs rest
  | _ => []

/-- The while-loop of calculateMerkleRoot, with explicit fuel; fuel equal
to the list length always suffices because each pass at least halves a
list of two or more hashes. -/
def merkleLoop : Nat → List String → List String
  | 0, hashes => hashes
  | fuel + 1, hashes =>
      if hashes.length > 1 then
        let hs :=
          if hashes.length % 2 ≠ 0 then hashes ++ [hashes.getLastD ""]
          else hashes
        merkleLoop fuel (merklePairs hs)
      else hashes

/-- blockchain.calculateMerkleRoot. -/
def calculateMerkleRoot (transactions : List MempoolTransaction) : String :=
  if transactions.length = 0 then zeroSentinel
  else
    let hashes := transactions.map (fun tx => sha256Hex (txLeafData tx))
    (merkleLoop hashes.length hashes).getD 0 ""

/-- The last two characters of a hex digest, as Go's hash[len(hash)-2:]. -/
def lastTwo (s : String) : String :=
  String.mk (s.data.drop (s.data.length - 2))

/-- The simplified proof-of-work acceptance test in calculateNonce. -/
def nonceOk (previousHash : String) (timestamp : Time) (merkleRoot : String)
    (nonce : Nat) : Bool :=
  lastTwo (calculateBlockHash (some previousHash) timestamp merkleRoot nonce)
    == "00"

/-- The unbounded for-loop of calculateNonce, with explicit fuel: try
nonces n, n+1, ... and return the first accepted one. -/
def calculateNonceAux (previousHash : String) (timestamp : Time)
    (merkleRoot : String) : Nat → Nat → Option Nat
  | 0, _ => none
  | fuel + 1, n =>
      if nonceOk previousHash timestamp merkleRoot n then some n
      else calculateNonceAux previousHash timestamp merkleRoot fuel (n + 1)

/-- blockchain.calculateNonce: linear search from 0 upward, fuelled. -/
def calculateNonce (previousHash : String) (timestamp : Time)
    (merkleRoot : String) (fuel : Nat) : Option Nat :=
  calculateNonceAux previousHash timestamp merkleRoot fuel 0

/-- blockchain.createGenesisBlock: the Go code reads time.Now() twice,
once inside the hash call and once for the stored Timestamp field; the
two readings are the now1 and now2 parameters. -/
def createGenesisBlock (now1 now2 : Time) : Block :=
  { ID := calculateBlockHash none now1 "genesis" 0
    PreviousHash := none
    Timestamp := now2
    MerkleRoot := "genesis"
    Nonce := 0
    Height := 0 }

/-- The invariant claimed for every persisted block: its id is the hash of
its own stored previous-hash, timestamp, merkle root and nonce. -/
def blockHashInvariant (b : Block) : Prop :=
  b.ID = calculateBlockHash b.PreviousHash b.Timestamp b.MerkleRoot b.Nonce

/-! ## Mempool (blockchain/methods.go) -/

/-- blockchain.Mempool. -/
structure Mempool where
  Transactions : List MempoolTransaction
  Capacity : Nat
  deriving DecidableEq, Repr

/-- Mempool.GetTransactions: a copy of the buffered entries in insertion
order, or the ErrEmptyMempool signal (none) when nothing is buffered. -/
def Mempool.GetTransactions (m : Mempool) : Option (List MempoolTransaction) :=
  if m.Transactions.length = 0 then none else some m.Transactions

/-- Mempool.AddTransaction.  When the buffer has reached capacity the Go
code drops the oldest entry with the slice expression Transactions[1:]
before appending; that slice expression panics (modelled as none) when
the buffer is empty, which happens exactly when the capacity is zero. -/
def Mempool.AddTransaction (m : Mempool) (tx : MempoolTransaction) :
    Option Mempool :=
  if m.Transactions.length ≥ m.Capacity then
    match m.Transactions with
    | [] => none
    | _ :: rest => some { m with Transactions := rest ++ [tx] }
  else some { m with Transactions := m.Transactions ++ [tx] }

/-- Mempool.Clear. -/
def Mempool.Clear (m : Mempool) : Mempool := { m with Transactions := [] }

/-- A sequence of AddTransaction calls, propagating a panic. -/
def applyAdds : List MempoolTransaction → Mempool → Option Mempool
  | [], m => some m
  | tx :: rest, m =>
      match m.AddTransaction tx with
      | none => none
      | some m2 => applyAdds rest m2

/-! ## Ledger engine (blockchain/methods.go), persistence made explicit -/

/-- The whole observable state the sealing cycle touches: the in-memory
chain head and mempool, plus the persisted blocks, transactions, messages
and channel messages. -/
structure ChainState where
  LatestBlock : Block
  mempool : Mempool
  blocks : List Block
  transactions : List Transaction
  messages : List Message
  channelMessages : List ChannelMessage
  deriving DecidableEq, Repr

/-- Errors a sealing attempt can signal in this model. -/
inductive BCError where
  | emptyMempool
  | nonceFuelExhausted
  deriving DecidableEq, Repr

instance {ε α : Type} [DecidableEq ε] [DecidableEq α] :
    DecidableEq (Except ε α) := fun x y =>
  match x, y with
  | .ok a, .ok b =>
      if h : a = b then isTrue (h ▸ rfl)
      else isFalse (fun hc => h (Except.ok.inj hc))
  | .ok _, .error _ => isFalse (fun hc => Except.noConfusion hc)
  | .error _, .ok _ => isFalse (fun hc => Except.noConfusion hc)
  | .error e, .error f =>
      if h : e = f then isTrue (h ▸ rfl)
      else isFalse (fun hc => h (Except.error.inj hc))

/-- Blockchain.AddToMempool: wrap the referenced entity into a mempool
entry stamped with the current time. -/
def AddToMempool (s : ChainState) (txType : TransactionType)
    (dataID : String) (now : Time) : Option ChainState :=
  (s.mempool.AddTransaction ⟨txType, dataID, now⟩).map
    (fun mp => { s with mempool := mp })

/-- models.UpdateMessageBlockID: UPDATE messages SET block_id WHERE id. -/
def UpdateMessageBlockID (id blockID : String) (msgs : List Message) :
    List Message :=
  msgs.map (fun msg => if msg.ID = id then { msg with BlockID := some blockID }
    else msg)

/-- models.UpdateChannelMessageBlockID. -/
def UpdateChannelMessageBlockID (id blockID : String)
    (msgs : List ChannelMessage) : List ChannelMessage :=
  msgs.map (fun msg => if msg.ID = id then { msg with BlockID := some blockID }
    else msg)

/-- The body of the per-entry loop in createBlock: persist one
transaction, then back-fill the block id onto the referenced entity when
the kind is message or channel_message. -/
def sealStep (blockID : String) (now : Time) (s : ChainState)
    (tx : MempoolTransaction) : ChainState :=
  let transaction : Transaction :=
    { Hash := calculateTransactionHash tx.Type' tx.DataID blockID now
      BlockID := blockID
      Type' := tx.Type'
      DataID := tx.DataID }
  let s1 := { s with transactions := s.transactions ++ [transaction] }
  if tx.Type' = TransactionTypeMessage then
    { s1 with messages := UpdateMessageBlockID tx.DataID blockID s1.messages }
  else if tx.Type' = TransactionTypeChannelMessage then
    { s1 with channelMessages :=
        UpdateChannelMessageBlockID tx.DataID blockID s1.channelMessages }
  else s1

/-- The per-entry loop of createBlock; the transaction-hash wall clock of
the i-th iteration is txTimes i. -/
def sealEntries (blockID : String) (txTimes : Nat → Time) :
    Nat → ChainState → List MempoolTransaction → ChainState
  | _, s, [] => s
  | i, s, tx :: rest =>
      sealEntries blockID txTimes (i + 1) (sealStep blockID (txTimes i) s tx)
        rest

/-- Blockchain.createBlock: snapshot the mempool (ErrEmptyMempool when
empty), build the block over the previous head, persist it, persist one
transaction per snapshot entry with back-fill, swap the head and clear
the mempool. -/
def createBlock (s : ChainState) (now : Time) (txTimes : Nat → Time)
    (fuel : Nat) : Except BCError ChainState :=
  match s.mempool.GetTransactions with
  | none => .error .emptyMempool
  | some transactions =>
    let latestBlock := s.LatestBlock
    let height := latestBlock.Height + 1
    let merkleRoot := calculateMerkleRoot transactions
    let timestamp := now
    match calculateNonce latestBlock.ID timestamp merkleRoot fuel with
    | none => .error .nonceFuelExhausted
    | some nonce =>
      let blockID :=
        calculateBlockHash (some latestBlock.ID) timestamp merkleRoot nonce
      let block : Block :=
        { ID := blockID
          PreviousHash := some latestBlock.ID
          Timestamp := timestamp
          MerkleRoot := merkleRoot
          Nonce := nonce
          Height := height }
      let s1 := { s with blocks := s.blocks ++ [block] }
      let s2 := sealEntries blockID txTimes 0 s1 transactions
      .ok { s2 with LatestBlock := block, mempool := s2.mempool.Clear }

/-- One tick of startBlockCreation: run createBlock; ErrEmptyMempool is
swallowed as a skip, any other failure is logged (second component) and
the state is left as it was. -/
def tickOnce (s : ChainState) (now : Time) (txTimes : Nat → Time)
    (fuel : Nat) : ChainState × Option BCError :=
  match createBlock s now txTimes fuel with
  | .ok s2 => (s2, none)
  | .error e => (s, if e = .emptyMempool then none else some e)

/-! ## Connection pool delivery sweep and status handlers (websocket) -/

/-- A targeted wire notification, reduced to the fields the claims are
about: who receives the frame, the frame type, and the message id and
status carried in the payload. -/
structure Notification where
  target : String
  msgType : String
  messageID : String
  status : String
  deriving DecidableEq, Repr

/-- models.UpdateMessageStatus: UPDATE messages SET status WHERE id — an
unconditional overwrite. -/
def UpdateMessageStatus (id : String) (status : MessageStatus)
    (msgs : List Message) : List Message :=
  msgs.map (fun msg => if msg.ID = id then { msg with Status := status }
    else msg)

/-- The register branch of Pool.Start: the client is put into the pool
first, then the sweep walks every persisted message addressed to it; each
pending one is set to delivered, and when the original sender is in the
pool it is sent a targeted status_update.  Returns the updated message
store and the emitted notifications. -/
def registerSweep (pool : List String) (addr : String)
    (msgs : List Message) : List Message × List Notification :=
  let clients := addr :: pool
  (msgs.filter (fun p => p.RecipientAddress = addr)).foldl
    (fun acc p =>
      if p.Status = .pending then
        let store := UpdateMessageStatus p.ID .delivered acc.1
        if p.SenderAddress ∈ clients then
          (store, acc.2 ++ [⟨p.SenderAddress, "status_update", p.ID,
            "delivered"⟩])
        else (store, acc.2)
      else acc)
    (msgs, [])

/-- The four message-store mutating operations of the delivery subsystem. -/
inductive MsgOp where
  | registerSweep (addr : String)
  | notifyNew (msg : Message)
  | readAck (messageID : String)
  | receivedAck (messageID : String)
  deriving DecidableEq, Repr

/-- Effect of one operation on the persisted message store.  The online
list is the set of registered addresses: NotifyNewMessage only writes
delivered when the recipient is online; the read and received handlers
of Client.Read write unconditionally. -/
def applyOp (online : List String) (msgs : List Message) : MsgOp → List Message
  | .registerSweep addr => (registerSweep online addr msgs).1
  | .notifyNew msg =>
      if msg.RecipientAddress ∈ online then
        UpdateMessageStatus msg.ID .delivered msgs
      else msgs
  | .readAck messageID => UpdateMessageStatus messageID .read msgs
  | .receivedAck messageID => UpdateMessageStatus messageID .delivered msgs

/-- A sequence of delivery-subsystem operations. -/
def applyOps (online : List String) (ops : List MsgOp)
    (msgs : List Message) : List Message :=
  ops.foldl (applyOp online) msgs

/-- Position of a status along pending, delivered, read. -/
def statusRank : MessageStatus → Nat
  | .pending => 0
  | .delivered => 1
  | .read => 2

/-- A concrete pre-seal chain state used to exercise the sealing cycle:
head block p at height 0, one message entry in the mempool, one pending
persisted message m1. -/
def sealDemoState : ChainState :=
  ⟨⟨"p", none, 0, "genesis", 0, 0⟩, ⟨[⟨"message", "m1", 3⟩], 10⟩, [], [],
    [⟨"m1", "bob", "alice", [], 0, .pending, none, none⟩], []⟩

/-- The state the sealing cycle produces from sealDemoState at timestamp
207 with transaction-hash clock 7 (the nonce search succeeds at 0). -/
def sealDemoResult : ChainState :=
  ⟨⟨"d12b3b4d86cc8517e034cd52d7215e94de23e364391117a4d4743af06db51000",
      some "p", 207,
      "2da435d857c0c36580220a0ba33f77c0e9c71e5cab44de9749cf02ea7cb79fdb",
      0, 1⟩,
    ⟨[], 10⟩,
    [⟨"d12b3b4d86cc8517e034cd52d7215e94de23e364391117a4d4743af06db51000",
      some "p", 207,
      "2da435d857c0c36580220a0ba33f77c0e9c71e5cab44de9749cf02ea7cb79fdb",
      0, 1⟩],
    [⟨"206fcab07944c2bf116d1919878f0d0488a6a40554fd5f14dadabd25517d0c57",
      "d12b3b4d86cc8517e034cd52d7215e94de23e364391117a4d4743af06db51000",
      "message", "m1"⟩],
    [⟨"m1", "bob", "alice", [], 0, .pending, none,
      some
        "d12b3b4d86cc8517e034cd52d7215e94de23e364391117a4d4743af06db51000"⟩],
    []⟩

end Piko

example :
    Piko.sha256Hex "abc" =
      "ba7816bf8f01cfea414140de5dae2223b00361a396177a9cb410ff61f20015ad" := by
  decide

namespace Piko

/-! ## Helper lemmas: mempool folding -/

lemma addTransaction_none_aux (m : Mempool) (tx : MempoolTransaction) :
    m.AddTransaction tx = none ↔ m.Transactions = [] ∧ m.Capacity = 0 := by
  unfold Mempool.AddTransaction
  by_cases hge : m.Transactions.length ≥ m.Capacity
  · rw [if_pos hge]
    cases hts : m.Transactions with
    | nil =>
        simp only [hts, List.length_nil] at hge
        simp [Nat.le_zero.mp hge]
    | cons a rest => simp [hts]
  · rw [if_neg hge]
    simp only [reduceCtorEq, false_iff, not_and]
    intro h1
    rw [h1] at hge
    simp only [List.length_nil, ge_iff_le, not_le] at hge
    omega

lemma applyAdds_drop (entries : List MempoolTransaction) :
    ∀ (m : Mempool), 1 ≤ m.Capacity → m.Transactions.length ≤ m.Capacity →
      applyAdds entries m =
        some ⟨(m.Transactions ++ entries).drop
                (m.Transactions.length + entries.length - m.Capacity),
              m.Capacity⟩ := by
  induction entries with
  | nil =>
      intro m h1 h2
      obtain ⟨ts, C⟩ := m
      simp only [applyAdds, List.append_nil, List.length_nil, Nat.add_zero]
      simp only at h2
      rw [Nat.sub_eq_zero_of_le h2, List.drop_zero]
  | cons tx rest ih =>
      intro m h1 h2
      obtain ⟨ts, C⟩ := m
      simp only at h1 h2
      unfold applyAdds Mempool.AddTransaction
      by_cases hge : ts.length ≥ C
      · have hlen : ts.length = C := le_antisymm h2 hge
        cases ts with
        | nil => simp only [List.length_nil] at hlen; omega
        | cons a ts2 =>
            rw [if_pos hge]
            show applyAdds rest ⟨ts2 ++ [tx], C⟩ = _
            simp only [List.length_cons] at hlen
            rw [ih ⟨ts2 ++ [tx], C⟩ h1
              (by simp only [List.length_append, List.length_singleton]
                  omega)]
            simp only [Option.some.injEq, Mempool.mk.injEq, and_true]
            simp only [List.length_append, List.length_cons, List.length_nil,
              Nat.zero_add]
            rw [(by omega : ts2.length + 1 + rest.length - C = rest.length),
              (by omega :
                ts2.length + 1 + (rest.length + 1) - C = rest.length + 1),
              List.cons_append, List.drop_succ_cons, List.append_assoc,
              List.singleton_append]
      · rw [if_neg hge]
        show applyAdds rest ⟨ts ++ [tx], C⟩ = _
        rw [ih ⟨ts ++ [tx], C⟩ h1
          (by simp only [List.length_append, List.length_singleton]; omega)]
        simp only [Option.some.injEq, Mempool.mk.injEq, and_true]
        simp only [List.length_append, List.length_cons, List.length_nil,
          Nat.zero_add]
        rw [(by omega :
            ts.length + 1 + rest.length - C
              = ts.length + (rest.length + 1) - C),
          List.append_assoc, List.singleton_append]

/-! ## Claim theorems: mempool -/

/-- Claim C3: folding any sequence of Add calls into a mempool of
capacity N at least 1 leaves exactly the last N entries (all of them
when fewer were added), in insertion order, and the snapshot returns
them. -/
theorem mempool_snapshot_is_last_N (N : Nat) (hN : 1 ≤ N)
    (entries : List MempoolTransaction) (hne : entries ≠ []) :
    applyAdds entries ⟨[], N⟩ =
        some ⟨entries.drop (entries.length - N), N⟩ ∧
      Mempool.GetTransactions ⟨entries.drop (entries.length - N), N⟩ =
        some (entries.drop (entries.length - N)) := by
  constructor
  · have h := applyAdds_drop entries ⟨[], N⟩ hN (by simp)
    simpa using h
  · unfold Mempool.GetTransactions
    have hlen : (entries.drop (entries.length - N)).length ≠ 0 := by
      rw [List.length_drop]
      have : entries.length ≠ 0 := fun h => hne (List.length_eq_zero.mp h)
      omega
    simp only [hlen, if_neg, not_false_iff]

/-- Witness for C3: the capacity-3 scenario A, B, C, D yielding the
snapshot B, C, D. -/
theorem mempool_snapshot_is_last_N_witness :
    (1 ≤ 3) ∧
      ([(⟨"message", "A", 1⟩ : MempoolTransaction), ⟨"message", "B", 2⟩,
          ⟨"message", "C", 3⟩, ⟨"message", "D", 4⟩] ≠ []) ∧
      (applyAdds [(⟨"message", "A", 1⟩ : MempoolTransaction),
            ⟨"message", "B", 2⟩, ⟨"message", "C", 3⟩, ⟨"message", "D", 4⟩]
            ⟨[], 3⟩ =
          some ⟨[⟨"message", "B", 2⟩, ⟨"message", "C", 3⟩,
            ⟨"message", "D", 4⟩], 3⟩ ∧
        Mempool.GetTransactions
            ⟨[(⟨"message", "B", 2⟩ : MempoolTransaction), ⟨"message", "C", 3⟩,
              ⟨"message", "D", 4⟩], 3⟩ =
          some [⟨"message", "B", 2⟩, ⟨"message", "C", 3⟩,
            ⟨"message", "D", 4⟩]) :=
  ⟨by decide, by decide,
    mempool_snapshot_is_last_N 3 (by decide)
      [⟨"message", "A", 1⟩, ⟨"message", "B", 2⟩, ⟨"message", "C", 3⟩,
        ⟨"message", "D", 4⟩] (by decide)⟩

/-- Counterexample to claim C8 as stated: with capacity 0 (allowed by the
configuration type) the very first Add evaluates Transactions[1:] on an
empty buffer, which panics in Go; the claim said Add never fails for
every capacity. -/
theorem mempool_add_panics_at_zero_capacity :
    Mempool.AddTransaction ⟨[], 0⟩ ⟨TransactionTypeMessage, "m1", 0⟩
      = none := rfl

/-- Claim C8 (amended): AddTransaction and the AddToMempool wrapper never
return an error and succeed with silent oldest-first eviction for every
state whose capacity is at least 1; the only failure is the slice panic
on an empty buffer at capacity 0. -/
theorem mempool_add_succeeds_iff :
    (∀ (m : Mempool) (tx : MempoolTransaction),
      m.AddTransaction tx = none ↔ m.Transactions = [] ∧ m.Capacity = 0) ∧
    (∀ (s : ChainState) (txType : TransactionType) (dataID : String)
        (now : Time),
      AddToMempool s txType dataID now = none ↔
        s.mempool.Transactions = [] ∧ s.mempool.Capacity = 0) ∧
    (∀ (m : Mempool) (tx : MempoolTransaction),
      m.Transactions.length ≥ m.Capacity → m.Transactions ≠ [] →
        m.AddTransaction tx =
          some ⟨m.Transactions.tail ++ [tx], m.Capacity⟩) := by
  refine ⟨addTransaction_none_aux, ?_, ?_⟩
  · intro s txType dataID now
    unfold AddToMempool
    cases h : s.mempool.AddTransaction ⟨txType, dataID, now⟩ with
    | none =>
        simp only [Option.map_none', true_iff]
        exact (addTransaction_none_aux _ _).mp h
    | some m2 =>
        simp only [Option.map_some', reduceCtorEq, false_iff, not_and]
        intro h1 h2
        have := (addTransaction_none_aux s.mempool ⟨txType, dataID, now⟩).mpr
          ⟨h1, h2⟩
        rw [this] at h
        exact Option.noConfusion h
  · intro m tx hge hne
    unfold Mempool.AddTransaction
    rw [if_pos hge]
    cases hts : m.Transactions with
    | nil => exact absurd hts hne
    | cons a rest => rfl

/-- Witness for C8 (amended): a full capacity-1 mempool accepts a new
entry by evicting the oldest. -/
theorem mempool_add_succeeds_iff_witness :
    ((⟨[⟨"message", "A", 1⟩], 1⟩ : Mempool).Transactions.length ≥ 1 ∧
      (⟨[⟨"message", "A", 1⟩], 1⟩ : Mempool).Transactions ≠ []) ∧
      Mempool.AddTransaction ⟨[⟨"message", "A", 1⟩], 1⟩
          ⟨"message", "B", 2⟩ =
        some ⟨[⟨"message", "B", 2⟩], 1⟩ :=
  ⟨⟨by decide, by decide⟩,
    mempool_add_succeeds_iff.2.2 ⟨[⟨"message", "A", 1⟩], 1⟩
      ⟨"message", "B", 2⟩ (by decide) (by decide)⟩

end Piko

namespace Piko

/-! ## Nonce search -/

lemma calculateNonceAux_spec (p : String) (t : Time) (r : String) :
    ∀ (fuel k n : Nat), calculateNonceAux p t r fuel k = some n →
      nonceOk p t r n = true ∧ k ≤ n ∧
        ∀ m, k ≤ m → m < n → nonceOk p t r m = false := by
  intro fuel
  induction fuel with
  | zero => intro k n h; simp [calculateNonceAux] at h
  | succ f ih =>
      intro k n h
      simp only [calculateNonceAux] at h
      split at h
      · obtain rfl : k = n := Option.some.inj h
        rename_i hk
        exact ⟨hk, le_refl k, fun m hm1 hm2 => absurd hm1 (by omega)⟩
      · rename_i hk
        obtain ⟨h1, h2, h3⟩ := ih (k + 1) n h
        refine ⟨h1, by omega, fun m hm1 hm2 => ?_⟩
        by_cases hmk : m = k
        · subst hmk
          simp only [Bool.not_eq_true] at hk
          exact hk
        · exact h3 m (by omega) hm2

/-- Claim C5: whenever the fuelled calculateNonce returns, the returned
nonce passes the proof-of-work test (the block hash ends in the two hex
characters 0 0), it is the least natural number doing so, and any other
run on the same previous hash, timestamp and merkle root that returns at
all returns the same nonce. -/
theorem findNonce_least (p : String) (t : Time) (r : String)
    (fuel n : Nat) (h : calculateNonce p t r fuel = some n) :
    nonceOk p t r n = true ∧
      (∀ m, m < n → nonceOk p t r m = false) ∧
      ∀ fuel2 m, calculateNonce p t r fuel2 = some m → m = n := by
  obtain ⟨h1, _, h3⟩ := calculateNonceAux_spec p t r fuel 0 n h
  refine ⟨h1, fun m hm => h3 m (Nat.zero_le m) hm, ?_⟩
  intro fuel2 m h2
  obtain ⟨g1, _, g3⟩ := calculateNonceAux_spec p t r fuel2 0 m h2
  rcases lt_trichotomy m n with hlt | heq | hgt
  · rw [h3 m (Nat.zero_le m) hlt] at g1
    exact Bool.noConfusion g1
  · exact heq
  · rw [g3 n (Nat.zero_le n) hgt] at h1
    exact Bool.noConfusion h1

set_option maxHeartbeats 1600000 in
/-- Witness for C5: on previous hash p, timestamp 163, merkle root r the
very first candidate nonce 0 is accepted. -/
theorem findNonce_least_witness :
    calculateNonce "p" 163 "r" 1 = some 0 ∧ nonceOk "p" 163 "r" 0 = true :=
  ⟨by decide, (findNonce_least "p" 163 "r" 1 0 (by decide)).1⟩

/-! ## Sealing-cycle claims -/

/-- Claim C7: a sealing tick that finds the mempool empty changes
nothing: createBlock signals the empty-batch condition and the tick
leaves the whole state (head, blocks, transactions, messages, mempool)
exactly as it was, logging nothing. -/
theorem empty_mempool_tick_skips (s : ChainState) (now : Time)
    (txTimes : Nat → Time) (fuel : Nat)
    (h : s.mempool.Transactions = []) :
    createBlock s now txTimes fuel = .error .emptyMempool ∧
      tickOnce s now txTimes fuel = (s, none) := by
  have hcb : createBlock s now txTimes fuel = .error .emptyMempool := by
    unfold createBlock Mempool.GetTransactions
    rw [h]
    rfl
  refine ⟨hcb, ?_⟩
  unfold tickOnce
  rw [hcb]
  rfl

/-- Witness for C7: a concrete chain state with an empty mempool is left
untouched by a tick. -/
theorem empty_mempool_tick_skips_witness :
    ((⟨⟨"g", none, 0, "genesis", 0, 0⟩, ⟨[], 10⟩, [⟨"g", none, 0, "genesis",
          0, 0⟩], [], [], []⟩ : ChainState).mempool.Transactions = []) ∧
      (createBlock ⟨⟨"g", none, 0, "genesis", 0, 0⟩, ⟨[], 10⟩,
            [⟨"g", none, 0, "genesis", 0, 0⟩], [], [], []⟩ 5 (fun _ => 5) 9 =
          .error .emptyMempool ∧
        tickOnce ⟨⟨"g", none, 0, "genesis", 0, 0⟩, ⟨[], 10⟩,
            [⟨"g", none, 0, "genesis", 0, 0⟩], [], [], []⟩ 5 (fun _ => 5) 9 =
          (⟨⟨"g", none, 0, "genesis", 0, 0⟩, ⟨[], 10⟩,
            [⟨"g", none, 0, "genesis", 0, 0⟩], [], [], []⟩, none)) :=
  ⟨rfl, empty_mempool_tick_skips _ 5 (fun _ => 5) 9 rfl⟩

/-- Claim C1 is a code bug at the genesis block: createGenesisBlock reads
the clock once for the hashed timestamp and again for the stored one, so
when the two readings differ (here 0 and 1) the stored block violates the
id-equals-hash-of-stored-fields invariant; the id actually commits to the
first reading. -/
theorem genesis_id_not_hash_of_stored_timestamp :
    (createGenesisBlock 0 1).ID = calculateBlockHash none 0 "genesis" 0 ∧
      (createGenesisBlock 0 1).Timestamp = 1 ∧
      ¬ blockHashInvariant (createGenesisBlock 0 1) := by
  refine ⟨rfl, rfl, ?_⟩
  unfold blockHashInvariant
  decide

end Piko

namespace Piko

/-! ## Generic update-by-key folding -/

lemma foldl_updateByKey {α : Type} (key : α → String) (f : α → α)
    (hkey : ∀ a, key (f a) = key a) (hidem : ∀ a, f (f a) = f a) :
    ∀ (ids : List String) (xs : List α),
      ids.foldl
          (fun acc id => acc.map (fun a => if key a = id then f a else a)) xs
        = xs.map (fun a => if key a ∈ ids then f a else a) := by
  intro ids
  induction ids with
  | nil => intro xs; simp
  | cons id rest ih =>
      intro xs
      simp only [List.foldl_cons]
      rw [ih (xs.map _), List.map_map]
      congr 1
      funext a
      simp only [Function.comp]
      by_cases h1 : key a = id
      · rw [if_pos h1, hkey, hidem, ite_self,
          if_pos (List.mem_cons.mpr (Or.inl h1))]
      · rw [if_neg h1]
        by_cases h2 : key a ∈ rest
        · rw [if_pos h2, if_pos (List.mem_cons.mpr (Or.inr h2))]
        · rw [if_neg h2, if_neg (fun hc => (List.mem_cons.mp hc).elim h1 h2)]

lemma foldl_skip_filter {α β : Type} (p : α → Prop) [DecidablePred p]
    (g : β → α → β) :
    ∀ (l : List α) (b : β),
      l.foldl (fun acc a => if p a then g acc a else acc) b
        = (l.filter (fun a => decide (p a))).foldl g b := by
  intro l
  induction l with
  | nil => intro b; rfl
  | cons a rest ih =>
      intro b
      by_cases h : p a
      · have hf : List.filter (fun x => decide (p x)) (a :: rest)
            = a :: List.filter (fun x => decide (p x)) rest := by
          simp [List.filter_cons, h]
        rw [List.foldl_cons, if_pos h, ih, hf, List.foldl_cons]
      · have hf : List.filter (fun x => decide (p x)) (a :: rest)
            = List.filter (fun x => decide (p x)) rest := by
          simp [List.filter_cons, h]
        rw [List.foldl_cons, if_neg h, ih, hf]

/-! ## Sealing loop structure -/

lemma ttM_ne_ttCM : TransactionTypeMessage ≠ TransactionTypeChannelMessage := by
  decide

lemma ttCM_ne_ttM : TransactionTypeChannelMessage ≠ TransactionTypeMessage := by
  decide

lemma sealStep_LatestBlock (b : String) (t : Time) (s : ChainState)
    (tx : MempoolTransaction) :
    (sealStep b t s tx).LatestBlock = s.LatestBlock := by
  unfold sealStep
  by_cases h1 : tx.Type' = TransactionTypeMessage
  · simp [h1, ttM_ne_ttCM]
  · by_cases h2 : tx.Type' = TransactionTypeChannelMessage <;>
      simp [h1, h2, ttCM_ne_ttM]

lemma sealStep_mempool (b : String) (t : Time) (s : ChainState)
    (tx : MempoolTransaction) :
    (sealStep b t s tx).mempool = s.mempool := by
  unfold sealStep
  by_cases h1 : tx.Type' = TransactionTypeMessage
  · simp [h1, ttM_ne_ttCM]
  · by_cases h2 : tx.Type' = TransactionTypeChannelMessage <;>
      simp [h1, h2, ttCM_ne_ttM]

lemma sealStep_blocks (b : String) (t : Time) (s : ChainState)
    (tx : MempoolTransaction) :
    (sealStep b t s tx).blocks = s.blocks := by
  unfold sealStep
  by_cases h1 : tx.Type' = TransactionTypeMessage
  · simp [h1, ttM_ne_ttCM]
  · by_cases h2 : tx.Type' = TransactionTypeChannelMessage <;>
      simp [h1, h2, ttCM_ne_ttM]

lemma sealStep_transactions (b : String) (t : Time) (s : ChainState)
    (tx : MempoolTransaction) :
    (sealStep b t s tx).transactions
      = s.transactions
          ++ [⟨calculateTransactionHash tx.Type' tx.DataID b t, b, tx.Type',
            tx.DataID⟩] := by
  unfold sealStep
  by_cases h1 : tx.Type' = TransactionTypeMessage
  · simp [h1, ttM_ne_ttCM]
  · by_cases h2 : tx.Type' = TransactionTypeChannelMessage <;>
      simp [h1, h2, ttCM_ne_ttM]

lemma sealStep_messages (b : String) (t : Time) (s : ChainState)
    (tx : MempoolTransaction) :
    (sealStep b t s tx).messages
      = if tx.Type' = TransactionTypeMessage then
          UpdateMessageBlockID tx.DataID b s.messages
        else s.messages := by
  unfold sealStep
  by_cases h1 : tx.Type' = TransactionTypeMessage
  · simp [h1, ttM_ne_ttCM]
  · by_cases h2 : tx.Type' = TransactionTypeChannelMessage <;>
      simp [h1, h2, ttCM_ne_ttM]

lemma sealStep_channelMessages (b : String) (t : Time) (s : ChainState)
    (tx : MempoolTransaction) :
    (sealStep b t s tx).channelMessages
      = if tx.Type' = TransactionTypeChannelMessage then
          UpdateChannelMessageBlockID tx.DataID b s.channelMessages
        else s.channelMessages := by
  unfold sealStep
  by_cases h1 : tx.Type' = TransactionTypeMessage
  · simp [h1, ttM_ne_ttCM]
  · by_cases h2 : tx.Type' = TransactionTypeChannelMessage <;>
      simp [h1, h2, ttCM_ne_ttM]

lemma sealEntries_LatestBlock (b : String) (T : Nat → Time) :
    ∀ (l : List MempoolTransaction) (i : Nat) (s : ChainState),
      (sealEntries b T i s l).LatestBlock = s.LatestBlock := by
  intro l
  induction l with
  | nil => intro i s; rfl
  | cons tx rest ih =>
      intro i s
      show (sealEntries b T (i + 1) (sealStep b (T i) s tx) rest).LatestBlock
        = _
      rw [ih, sealStep_LatestBlock]

lemma sealEntries_mempool (b : String) (T : Nat → Time) :
    ∀ (l : List MempoolTransaction) (i : Nat) (s : ChainState),
      (sealEntries b T i s l).mempool = s.mempool := by
  intro l
  induction l with
  | nil => intro i s; rfl
  | cons tx rest ih =>
      intro i s
      show (sealEntries b T (i + 1) (sealStep b (T i) s tx) rest).mempool = _
      rw [ih, sealStep_mempool]

lemma sealEntries_blocks (b : String) (T : Nat → Time) :
    ∀ (l : List MempoolTransaction) (i : Nat) (s : ChainState),
      (sealEntries b T i s l).blocks = s.blocks := by
  intro l
  induction l with
  | nil => intro i s; rfl
  | cons tx rest ih =>
      intro i s
      show (sealEntries b T (i + 1) (sealStep b (T i) s tx) rest).blocks = _
      rw [ih, sealStep_blocks]

lemma sealEntries_transactions_proj (b : String) (T : Nat → Time) :
    ∀ (l : List MempoolTransaction) (i : Nat) (s : ChainState),
      (sealEntries b T i s l).transactions.map
          (fun t => (t.Type', t.DataID, t.BlockID))
        = s.transactions.map (fun t => (t.Type', t.DataID, t.BlockID))
            ++ l.map (fun tx => (tx.Type', tx.DataID, b)) := by
  intro l
  induction l with
  | nil => intro i s; simp [sealEntries]
  | cons tx rest ih =>
      intro i s
      show (sealEntries b T (i + 1)
          (sealStep b (T i) s tx) rest).transactions.map _ = _
      rw [ih, sealStep_transactions]
      simp [List.append_assoc]

lemma sealEntries_messages (b : String) (T : Nat → Time) :
    ∀ (l : List MempoolTransaction) (i : Nat) (s : ChainState),
      (sealEntries b T i s l).messages
        = l.foldl
            (fun acc tx =>
              if tx.Type' = TransactionTypeMessage then
                UpdateMessageBlockID tx.DataID b acc
              else acc)
            s.messages := by
  intro l
  induction l with
  | nil => intro i s; rfl
  | cons tx rest ih =>
      intro i s
      show (sealEntries b T (i + 1) (sealStep b (T i) s tx) rest).messages = _
      rw [ih, sealStep_messages, List.foldl_cons]

lemma sealEntries_channelMessages (b : String) (T : Nat → Time) :
    ∀ (l : List MempoolTransaction) (i : Nat) (s : ChainState),
      (sealEntries b T i s l).channelMessages
        = l.foldl
            (fun acc tx =>
              if tx.Type' = TransactionTypeChannelMessage then
                UpdateChannelMessageBlockID tx.DataID b acc
              else acc)
            s.channelMessages := by
  intro l
  induction l with
  | nil => intro i s; rfl
  | cons tx rest ih =>
      intro i s
      show (sealEntries b T (i + 1)
          (sealStep b (T i) s tx) rest).channelMessages = _
      rw [ih, sealStep_channelMessages, List.foldl_cons]

lemma backfill_messages_map (b : String) (l : List MempoolTransaction)
    (msgs : List Message) :
    l.foldl
        (fun acc tx =>
          if tx.Type' = TransactionTypeMessage then
            UpdateMessageBlockID tx.DataID b acc
          else acc)
        msgs
      = msgs.map (fun m =>
          if m.ID ∈ (l.filter
                (fun tx => decide (tx.Type' = TransactionTypeMessage))).map
                  (fun tx => tx.DataID) then
            { m with BlockID := some b }
          else m) := by
  have h1 := foldl_skip_filter
    (fun tx : MempoolTransaction => tx.Type' = TransactionTypeMessage)
    (fun acc tx => UpdateMessageBlockID tx.DataID b acc) l msgs
  have h2 := List.foldl_map (fun tx : MempoolTransaction => tx.DataID)
    (fun acc id => UpdateMessageBlockID id b acc)
    (l.filter (fun tx => decide (tx.Type' = TransactionTypeMessage))) msgs
  have h3 := foldl_updateByKey Message.ID
    (fun m => { m with BlockID := some b }) (fun _ => rfl) (fun _ => rfl)
    ((l.filter (fun tx =>
      decide (tx.Type' = TransactionTypeMessage))).map (fun tx => tx.DataID))
    msgs
  exact h1.trans (h2.symm.trans h3)

lemma backfill_channelMessages_map (b : String)
    (l : List MempoolTransaction) (msgs : List ChannelMessage) :
    l.foldl
        (fun acc tx =>
          if tx.Type' = TransactionTypeChannelMessage then
            UpdateChannelMessageBlockID tx.DataID b acc
          else acc)
        msgs
      = msgs.map (fun m =>
          if m.ID ∈ (l.filter
                (fun tx =>
                  decide (tx.Type' = TransactionTypeChannelMessage))).map
                  (fun tx => tx.DataID) then
            { m with BlockID := some b }
          else m) := by
  have h1 := foldl_skip_filter
    (fun tx : MempoolTransaction => tx.Type' = TransactionTypeChannelMessage)
    (fun acc tx => UpdateChannelMessageBlockID tx.DataID b acc) l msgs
  have h2 := List.foldl_map (fun tx : MempoolTransaction => tx.DataID)
    (fun acc id => UpdateChannelMessageBlockID id b acc)
    (l.filter (fun tx =>
      decide (tx.Type' = TransactionTypeChannelMessage))) msgs
  have h3 := foldl_updateByKey ChannelMessage.ID
    (fun m => { m with BlockID := some b }) (fun _ => rfl) (fun _ => rfl)
    ((l.filter (fun tx =>
      decide (tx.Type' = TransactionTypeChannelMessage))).map
      (fun tx => tx.DataID))
    msgs
  exact h1.trans (h2.symm.trans h3)

end Piko

namespace Piko

set_option maxHeartbeats 3200000 in
/-- Claim C2: a successful sealing cycle produces a block at height
previous + 1 chained to the previous head, persists it, persists exactly
one transaction per mempool-snapshot entry in snapshot order (all owned
by the new block), back-fills the new block id onto every message and
channel message referenced by an entry of the corresponding kind, and
leaves the mempool empty. -/
theorem seal_cycle_correct (s : ChainState) (now : Time)
    (txTimes : Nat → Time) (fuel : Nat) (s2 : ChainState)
    (h : createBlock s now txTimes fuel = .ok s2) :
    s2.LatestBlock.Height = s.LatestBlock.Height + 1 ∧
      s2.LatestBlock.PreviousHash = some s.LatestBlock.ID ∧
      s2.blocks = s.blocks ++ [s2.LatestBlock] ∧
      s2.transactions.map (fun t => (t.Type', t.DataID, t.BlockID))
        = s.transactions.map (fun t => (t.Type', t.DataID, t.BlockID))
            ++ s.mempool.Transactions.map
                (fun tx => (tx.Type', tx.DataID, s2.LatestBlock.ID)) ∧
      s2.messages = s.messages.map (fun m =>
        if m.ID ∈ (s.mempool.Transactions.filter
              (fun tx => decide (tx.Type' = TransactionTypeMessage))).map
              (fun tx => tx.DataID) then
          { m with BlockID := some s2.LatestBlock.ID }
        else m) ∧
      s2.channelMessages = s.channelMessages.map (fun m =>
        if m.ID ∈ (s.mempool.Transactions.filter
              (fun tx =>
                decide (tx.Type' = TransactionTypeChannelMessage))).map
              (fun tx => tx.DataID) then
          { m with BlockID := some s2.LatestBlock.ID }
        else m) ∧
      s2.mempool.Transactions = [] := by
  unfold createBlock at h
  split at h
  · exact Except.noConfusion h
  · rename_i transactions heq
    have htxs : transactions = s.mempool.Transactions := by
      unfold Mempool.GetTransactions at heq
      split at heq
      · exact Option.noConfusion heq
      · exact (Option.some.inj heq).symm
    dsimp only at h
    split at h
    · exact Except.noConfusion h
    · rename_i nonce hn
      obtain rfl := Except.ok.inj h
      subst htxs
      refine ⟨rfl, rfl, ?_, ?_, ?_, ?_, rfl⟩
      · show (sealEntries _ txTimes 0 _ _).blocks = _
        rw [sealEntries_blocks]
      · show (sealEntries _ txTimes 0 _ _).transactions.map _ = _
        rw [sealEntries_transactions_proj]
      · show (sealEntries _ txTimes 0 _ _).messages = _
        rw [sealEntries_messages, backfill_messages_map]
      · show (sealEntries _ txTimes 0 _ _).channelMessages = _
        rw [sealEntries_channelMessages, backfill_channelMessages_map]

end Piko

namespace Piko

set_option maxHeartbeats 8000000 in
set_option maxRecDepth 4000 in
/-- Witness for C2: the concrete sealing run from sealDemoState: height
goes from 0 to 1, the new block chains to p, one transaction is
persisted for the single snapshot entry, message m1 gets the new block
id back-filled, and the mempool ends empty. -/
theorem seal_cycle_correct_witness :
    createBlock sealDemoState 207 (fun _ => 7) 1 = .ok sealDemoResult ∧
      (sealDemoResult.LatestBlock.Height
          = sealDemoState.LatestBlock.Height + 1 ∧
        sealDemoResult.LatestBlock.PreviousHash
          = some sealDemoState.LatestBlock.ID ∧
        sealDemoResult.blocks
          = sealDemoState.blocks ++ [sealDemoResult.LatestBlock] ∧
        sealDemoResult.transactions.map
            (fun t => (t.Type', t.DataID, t.BlockID))
          = sealDemoState.transactions.map
                (fun t => (t.Type', t.DataID, t.BlockID))
              ++ sealDemoState.mempool.Transactions.map
                  (fun tx =>
                    (tx.Type', tx.DataID, sealDemoResult.LatestBlock.ID)) ∧
        sealDemoResult.messages = sealDemoState.messages.map (fun m =>
          if m.ID ∈ (sealDemoState.mempool.Transactions.filter
                (fun tx => decide (tx.Type' = TransactionTypeMessage))).map
                (fun tx => tx.DataID) then
            { m with BlockID := some sealDemoResult.LatestBlock.ID }
          else m) ∧
        sealDemoResult.channelMessages
          = sealDemoState.channelMessages.map (fun m =>
            if m.ID ∈ (sealDemoState.mempool.Transactions.filter
                  (fun tx =>
                    decide (tx.Type' = TransactionTypeChannelMessage))).map
                  (fun tx => tx.DataID) then
              { m with BlockID := some sealDemoResult.LatestBlock.ID }
            else m) ∧
        sealDemoResult.mempool.Transactions = []) := by
  have h : createBlock sealDemoState 207 (fun _ => 7) 1
      = .ok sealDemoResult := by decide
  exact ⟨h, seal_cycle_correct sealDemoState 207 (fun _ => 7) 1
    sealDemoResult h⟩

end Piko


namespace Piko

/-! ## Registration sweep structure -/

lemma sweepFold_fst (clients : List String) :
    ∀ (l : List Message) (store : List Message)
      (notifs : List Notification),
      (l.foldl
          (fun acc p =>
            if p.Status = .pending then
              let store2 := UpdateMessageStatus p.ID .delivered acc.1
              if p.SenderAddress ∈ clients then
                (store2, acc.2 ++ [⟨p.SenderAddress, "status_update", p.ID,
                  "delivered"⟩])
              else (store2, acc.2)
            else acc)
          (store, notifs)).1
        = l.foldl
            (fun acc p =>
              if p.Status = .pending then
                UpdateMessageStatus p.ID .delivered acc
              else acc)
            store := by
  intro l
  induction l with
  | nil => intro store notifs; rfl
  | cons p rest ih =>
      intro store notifs
      by_cases h1 : p.Status = .pending
      · by_cases h2 : p.SenderAddress ∈ clients
        · simp only [List.foldl_cons, if_pos h1, if_pos h2]
          exact ih _ _
        · simp only [List.foldl_cons, if_pos h1, if_neg h2]
          exact ih _ _
      · simp only [List.foldl_cons, if_neg h1]
        exact ih _ _

lemma sweepFold_snd (clients : List String) :
    ∀ (l : List Message) (store : List Message)
      (notifs : List Notification),
      (l.foldl
          (fun acc p =>
            if p.Status = .pending then
              let store2 := UpdateMessageStatus p.ID .delivered acc.1
              if p.SenderAddress ∈ clients then
                (store2, acc.2 ++ [⟨p.SenderAddress, "status_update", p.ID,
                  "delivered"⟩])
              else (store2, acc.2)
            else acc)
          (store, notifs)).2
        = notifs ++ l.filterMap
            (fun p =>
              if p.Status = .pending ∧ p.SenderAddress ∈ clients then
                some ⟨p.SenderAddress, "status_update", p.ID, "delivered"⟩
              else none) := by
  intro l
  induction l with
  | nil => intro store notifs; simp
  | cons p rest ih =>
      intro store notifs
      by_cases h1 : p.Status = .pending
      · by_cases h2 : p.SenderAddress ∈ clients
        · simp only [List.foldl_cons, if_pos h1, if_pos h2,
            List.filterMap_cons, ih, h1, h2, and_self, if_pos, true_and,
            if_true]
          simp [List.append_assoc, h2]
        · simp only [List.foldl_cons, if_pos h1, if_neg h2,
            List.filterMap_cons, ih]
          have hc : ¬ (p.Status = .pending ∧ p.SenderAddress ∈ clients) :=
            fun hc => h2 hc.2
          simp [hc]
      · simp only [List.foldl_cons, if_neg h1, List.filterMap_cons, ih]
        have hc : ¬ (p.Status = .pending ∧ p.SenderAddress ∈ clients) :=
          fun hc => h1 hc.1
        simp [hc]

lemma registerSweep_fst_formula (pool : List String) (addr : String)
    (msgs : List Message) :
    (registerSweep pool addr msgs).1
      = msgs.map (fun m =>
          if m.ID ∈ ((msgs.filter
                (fun p => decide (p.RecipientAddress = addr))).filter
                (fun p => decide (p.Status = MessageStatus.pending))).map
                (fun p => p.ID) then
            { m with Status := .delivered }
          else m) := by
  unfold registerSweep
  dsimp only
  rw [sweepFold_fst (addr :: pool)
    (msgs.filter (fun p => decide (p.RecipientAddress = addr))) msgs []]
  have h1 := foldl_skip_filter
    (fun p : Message => p.Status = MessageStatus.pending)
    (fun acc p => UpdateMessageStatus p.ID .delivered acc)
    (msgs.filter (fun p => decide (p.RecipientAddress = addr))) msgs
  have h2 := List.foldl_map (fun p : Message => p.ID)
    (fun acc id => UpdateMessageStatus id .delivered acc)
    ((msgs.filter (fun p => decide (p.RecipientAddress = addr))).filter
      (fun p => decide (p.Status = MessageStatus.pending))) msgs
  have h3 := foldl_updateByKey Message.ID
    (fun m => { m with Status := .delivered }) (fun _ => rfl) (fun _ => rfl)
    (((msgs.filter (fun p => decide (p.RecipientAddress = addr))).filter
      (fun p => decide (p.Status = MessageStatus.pending))).map
      (fun p => p.ID))
    msgs
  exact h1.trans (h2.symm.trans h3)

lemma registerSweep_snd_formula (pool : List String) (addr : String)
    (msgs : List Message) :
    (registerSweep pool addr msgs).2
      = (msgs.filter
          (fun p => decide (p.RecipientAddress = addr))).filterMap
          (fun p =>
            if p.Status = .pending ∧ p.SenderAddress ∈ addr :: pool then
              some ⟨p.SenderAddress, "status_update", p.ID, "delivered"⟩
            else none) := by
  unfold registerSweep
  dsimp only
  rw [sweepFold_snd (addr :: pool)
    (msgs.filter (fun p => decide (p.RecipientAddress = addr))) msgs []]
  rw [List.nil_append]

end Piko

namespace Piko

lemma registerSweep_pending_map (pool : List String) (addr : String)
    (msgs : List Message) (hnd : (msgs.map Message.ID).Nodup) :
    (registerSweep pool addr msgs).1
      = msgs.map (fun m =>
          if m.RecipientAddress = addr ∧ m.Status = .pending then
            { m with Status := .delivered }
          else m) := by
  rw [registerSweep_fst_formula]
  apply List.map_congr_left
  intro m hm
  by_cases hc : m.RecipientAddress = addr ∧ m.Status = .pending
  · rw [if_pos ?_, if_pos hc]
    apply List.mem_map_of_mem
    rw [List.mem_filter]
    refine ⟨?_, by simp [hc.2]⟩
    rw [List.mem_filter]
    exact ⟨hm, by simp [hc.1]⟩
  · rw [if_neg ?_, if_neg hc]
    intro hmem
    rw [List.mem_map] at hmem
    obtain ⟨p, hpmem, hpid⟩ := hmem
    rw [List.mem_filter] at hpmem
    obtain ⟨hpf, hpend⟩ := hpmem
    rw [List.mem_filter] at hpf
    obtain ⟨hpmsgs, hprec⟩ := hpf
    obtain rfl : p = m := List.inj_on_of_nodup_map hnd hpmsgs hm hpid
    simp only [decide_eq_true_eq] at hprec hpend
    exact hc ⟨hprec, hpend⟩

/-- Claim C9: when a client registers, every persisted pending message
addressed to it is transitioned to delivered, and for each such message
whose sender is registered (the pool now including the new client), a
targeted status_update notification for that message is emitted to the
sender. -/
theorem register_sweep_delivers (pool : List String) (addr : String)
    (msgs : List Message) (m : Message) (hm : m ∈ msgs)
    (hrec : m.RecipientAddress = addr) (hp : m.Status = .pending) :
    { m with Status := .delivered } ∈ (registerSweep pool addr msgs).1 ∧
      (m.SenderAddress ∈ addr :: pool →
        (⟨m.SenderAddress, "status_update", m.ID, "delivered"⟩ :
            Notification)
          ∈ (registerSweep pool addr msgs).2) := by
  constructor
  · rw [registerSweep_fst_formula]
    have hmem : m.ID ∈ ((msgs.filter
        (fun p => decide (p.RecipientAddress = addr))).filter
        (fun p => decide (p.Status = MessageStatus.pending))).map
        (fun p => p.ID) := by
      apply List.mem_map_of_mem
      rw [List.mem_filter]
      refine ⟨?_, by simp [hp]⟩
      rw [List.mem_filter]
      exact ⟨hm, by simp [hrec]⟩
    have himg := List.mem_map_of_mem (fun m2 : Message =>
      if m2.ID ∈ ((msgs.filter
          (fun p => decide (p.RecipientAddress = addr))).filter
          (fun p => decide (p.Status = MessageStatus.pending))).map
          (fun p => p.ID) then
        { m2 with Status := .delivered }
      else m2) hm
    dsimp only at himg
    rw [if_pos hmem] at himg
    exact himg
  · intro hsender
    rw [registerSweep_snd_formula]
    rw [List.mem_filterMap]
    refine ⟨m, ?_, ?_⟩
    · rw [List.mem_filter]
      exact ⟨hm, by simp [hrec]⟩
    · rw [if_pos ⟨hp, hsender⟩]

/-- Witness for C9: alice registers while pending message m1 from bob is
persisted and bob is online; m1 becomes delivered and bob receives the
targeted status_update. -/
theorem register_sweep_delivers_witness :
    ((⟨"m1", "bob", "alice", [], 0, .pending, none, none⟩ : Message)
        ∈ [(⟨"m1", "bob", "alice", [], 0, .pending, none, none⟩ : Message)]) ∧
      ((⟨"m1", "bob", "alice", [], 0, .pending, none,
          none⟩ : Message).RecipientAddress = "alice") ∧
      ((⟨"m1", "bob", "alice", [], 0, .pending, none,
          none⟩ : Message).Status = .pending) ∧
      ((⟨"m1", "bob", "alice", [], 0, .delivered, none, none⟩ : Message)
          ∈ (registerSweep ["bob"] "alice"
              [⟨"m1", "bob", "alice", [], 0, .pending, none, none⟩]).1 ∧
        ((⟨"m1", "bob", "alice", [], 0, .pending, none,
              none⟩ : Message).SenderAddress ∈ "alice" :: ["bob"] →
          (⟨"bob", "status_update", "m1", "delivered"⟩ : Notification)
            ∈ (registerSweep ["bob"] "alice"
                [⟨"m1", "bob", "alice", [], 0, .pending, none,
                  none⟩]).2)) :=
  ⟨by decide, by decide, by decide,
    register_sweep_delivers ["bob"] "alice"
      [⟨"m1", "bob", "alice", [], 0, .pending, none, none⟩]
      ⟨"m1", "bob", "alice", [], 0, .pending, none, none⟩
      (by decide) (by decide) (by decide)⟩

/-- Claim C10: under the database invariant that message ids are unique,
the registration sweep maps each message addressed to the connecting
client to delivered only when it was pending, and leaves every other
message (delivered, read, or other recipients) completely unchanged in
all fields. -/
theorem register_sweep_frame (pool : List String) (addr : String)
    (msgs : List Message) (hnd : (msgs.map Message.ID).Nodup) :
    (registerSweep pool addr msgs).1
      = msgs.map (fun m =>
          if m.RecipientAddress = addr ∧ m.Status = .pending then
            { m with Status := .delivered }
          else m) :=
  registerSweep_pending_map pool addr msgs hnd

/-- Witness for C10: a pending and a read message to alice; the sweep
delivers the pending one and leaves the read one untouched. -/
theorem register_sweep_frame_witness :
    (([(⟨"m1", "bob", "alice", [], 0, .pending, none, none⟩ : Message),
          ⟨"m2", "bob", "alice", [], 0, .read, none, none⟩].map
        Message.ID).Nodup) ∧
      (registerSweep [] "alice"
          [⟨"m1", "bob", "alice", [], 0, .pending, none, none⟩,
            ⟨"m2", "bob", "alice", [], 0, .read, none, none⟩]).1
        = [⟨"m1", "bob", "alice", [], 0, .delivered, none, none⟩,
            ⟨"m2", "bob", "alice", [], 0, .read, none, none⟩] :=
  ⟨by decide,
    register_sweep_frame [] "alice"
      [⟨"m1", "bob", "alice", [], 0, .pending, none, none⟩,
        ⟨"m2", "bob", "alice", [], 0, .read, none, none⟩] (by decide)⟩

end Piko

namespace Piko

/-! ## Message status transitions -/

lemma UpdateMessageStatus_getElem (id : String) (st : MessageStatus)
    (msgs : List Message) (i : Nat) (m : Message) (h : msgs[i]? = some m) :
    (UpdateMessageStatus id st msgs)[i]?
      = some (if m.ID = id then { m with Status := st } else m) := by
  unfold UpdateMessageStatus
  rw [List.getElem?_map, h, Option.map_some']

lemma applyOp_getElem (online : List String) (op : MsgOp)
    (msgs : List Message) (i : Nat) (m : Message) (h : msgs[i]? = some m) :
    ∃ m2, (applyOp online msgs op)[i]? = some m2 ∧
      (m2 = m ∨ m2 = { m with Status := .delivered }
        ∨ m2 = { m with Status := .read }) := by
  cases op with
  | registerSweep addr =>
      have e : applyOp online msgs (.registerSweep addr)
          = (registerSweep online addr msgs).1 := rfl
      rw [e, registerSweep_fst_formula, List.getElem?_map, h,
        Option.map_some']
      refine ⟨_, rfl, ?_⟩
      by_cases hc : m.ID ∈ ((msgs.filter
          (fun p => decide (p.RecipientAddress = addr))).filter
          (fun p => decide (p.Status = MessageStatus.pending))).map
          (fun p => p.ID)
      · rw [if_pos hc]
        exact Or.inr (Or.inl rfl)
      · rw [if_neg hc]
        exact Or.inl rfl
  | notifyNew msg =>
      have e : applyOp online msgs (.notifyNew msg)
          = if msg.RecipientAddress ∈ online then
              UpdateMessageStatus msg.ID .delivered msgs
            else msgs := rfl
      by_cases hc : msg.RecipientAddress ∈ online
      · rw [e, if_pos hc]
        rw [UpdateMessageStatus_getElem msg.ID .delivered msgs i m h]
        refine ⟨_, rfl, ?_⟩
        by_cases hid : m.ID = msg.ID
        · rw [if_pos hid]
          exact Or.inr (Or.inl rfl)
        · rw [if_neg hid]
          exact Or.inl rfl
      · rw [e, if_neg hc]
        exact ⟨m, h, Or.inl rfl⟩
  | readAck messageID =>
      have e : applyOp online msgs (.readAck messageID)
          = UpdateMessageStatus messageID .read msgs := rfl
      rw [e, UpdateMessageStatus_getElem messageID
        MessageStatus.read msgs i m h]
      refine ⟨_, rfl, ?_⟩
      by_cases hid : m.ID = messageID
      · rw [if_pos hid]
        exact Or.inr (Or.inr rfl)
      · rw [if_neg hid]
        exact Or.inl rfl
  | receivedAck messageID =>
      have e : applyOp online msgs (.receivedAck messageID)
          = UpdateMessageStatus messageID .delivered msgs := rfl
      rw [e, UpdateMessageStatus_getElem messageID
        MessageStatus.delivered msgs i m h]
      refine ⟨_, rfl, ?_⟩
      by_cases hid : m.ID = messageID
      · rw [if_pos hid]
        exact Or.inr (Or.inl rfl)
      · rw [if_neg hid]
        exact Or.inl rfl

/-- Counterexample to claim C4 as stated: a received acknowledgment on a
message already marked read blindly overwrites the status back to
delivered, a regression along the pending, delivered, read order. -/
theorem received_ack_regresses_read_message :
    applyOp [] [⟨"m1", "bob", "alice", [], 0, .read, none, none⟩]
        (.receivedAck "m1")
      = [⟨"m1", "bob", "alice", [], 0, .delivered, none, none⟩] ∧
      statusRank .delivered < statusRank .read :=
  ⟨by decide, by decide⟩

/-- Claim C4 (amended): no sequence of delivery operations ever moves a
message back to pending, and the registration sweep alone never lowers a
status (given unique ids, it writes only pending messages); but the
acknowledgment handlers write unconditionally, so read can regress to
delivered as the counterexample shows. -/
theorem message_status_monotonicity_amended :
    (∀ (online : List String) (ops : List MsgOp) (msgs : List Message)
        (i : Nat) (m m2 : Message),
        msgs[i]? = some m → (applyOps online ops msgs)[i]? = some m2 →
          m.Status ≠ .pending → m2.Status ≠ .pending) ∧
      (∀ (online : List String) (addr : String) (msgs : List Message)
          (i : Nat) (m m2 : Message),
          (msgs.map Message.ID).Nodup → msgs[i]? = some m →
          (applyOp online msgs (.registerSweep addr))[i]? = some m2 →
            statusRank m.Status ≤ statusRank m2.Status) := by
  constructor
  · intro online ops
    induction ops with
    | nil =>
        intro msgs i m m2 h1 h2 h3
        have e : applyOps online [] msgs = msgs := rfl
        rw [e, h1] at h2
        obtain rfl := Option.some.inj h2
        exact h3
    | cons op rest ih =>
        intro msgs i m m2 h1 h2 h3
        obtain ⟨m1, hm1, hcases⟩ := applyOp_getElem online op msgs i m h1
        have e : applyOps online (op :: rest) msgs
            = applyOps online rest (applyOp online msgs op) := rfl
        rw [e] at h2
        refine ih (applyOp online msgs op) i m1 m2 hm1 h2 ?_
        rcases hcases with rfl | rfl | rfl
        · exact h3
        · intro hc
          exact MessageStatus.noConfusion hc
        · intro hc
          exact MessageStatus.noConfusion hc
  · intro online addr msgs i m m2 hnd h1 h2
    have e : applyOp online msgs (.registerSweep addr)
        = (registerSweep online addr msgs).1 := rfl
    rw [e, registerSweep_pending_map online addr msgs hnd,
      List.getElem?_map, h1, Option.map_some'] at h2
    obtain rfl := Option.some.inj h2
    by_cases hc : m.RecipientAddress = addr ∧ m.Status = .pending
    · rw [if_pos hc]
      rw [hc.2]
      show statusRank MessageStatus.pending
        ≤ statusRank MessageStatus.delivered
      decide
    · rw [if_neg hc]

/-- Witness for C4 (amended): a read message stays non-pending through a
received acknowledgment, and the sweep only raises the rank of a pending
message. -/
theorem message_status_monotonicity_amended_witness :
    (([(⟨"m1", "bob", "alice", [], 0, .read, none, none⟩ : Message)])[0]?
        = some ⟨"m1", "bob", "alice", [], 0, .read, none, none⟩) ∧
      ((applyOps [] [.receivedAck "m1"]
          [⟨"m1", "bob", "alice", [], 0, .read, none, none⟩])[0]?
        = some ⟨"m1", "bob", "alice", [], 0, .delivered, none, none⟩) ∧
      ((⟨"m1", "bob", "alice", [], 0, .delivered, none,
          none⟩ : Message).Status ≠ .pending) ∧
      (([(⟨"m1", "bob", "alice", [], 0, .pending, none,
            none⟩ : Message)].map Message.ID).Nodup) ∧
      ((applyOp [] [⟨"m1", "bob", "alice", [], 0, .pending, none, none⟩]
          (.registerSweep "alice"))[0]?
        = some ⟨"m1", "bob", "alice", [], 0, .delivered, none, none⟩) ∧
      statusRank
          (⟨"m1", "bob", "alice", [], 0, .pending, none,
            none⟩ : Message).Status
        ≤ statusRank
            (⟨"m1", "bob", "alice", [], 0, .delivered, none,
              none⟩ : Message).Status :=
  ⟨by decide, by decide,
    message_status_monotonicity_amended.1 [] [.receivedAck "m1"]
      [⟨"m1", "bob", "alice", [], 0, .read, none, none⟩] 0
      ⟨"m1", "bob", "alice", [], 0, .read, none, none⟩
      ⟨"m1", "bob", "alice", [], 0, .delivered, none, none⟩
      (by decide) (by decide) (by decide),
    by decide, by decide,
    message_status_monotonicity_amended.2 [] "alice"
      [⟨"m1", "bob", "alice", [], 0, .pending, none, none⟩] 0
      ⟨"m1", "bob", "alice", [], 0, .pending, none, none⟩
      ⟨"m1", "bob", "alice", [], 0, .delivered, none, none⟩
      (by decide) (by decide) (by decide)⟩

end Piko
